import Mathlib

/-!
Shallow embedding of the mgosession `Pool` (vendor/github.com/juju/mgosession/session.go).

Session handles are modelled as natural-number identifiers. A fresh-identifier
counter is threaded through the state so that `Copy` and `Clone` allocate
handles that were never seen before. Side effects (log lines, backend calls
such as `Copy`, `Ping`, `Clone`, `Close`) are recorded as an event list.
Go panics (closed-pool access, index out of range on the slot slice,
`make` with a negative length) are modelled as `Except.error`.
-/

namespace Mgosession

deriving instance DecidableEq for Except

/-- Observable effects of pool operations: backend-session calls and log lines.
`copyCalled src new` records `src.Copy()` returning handle `new`;
`pingCalled h ok` records `h.Ping()` with outcome `ok`;
`cloneCalled src new` records `src.Clone()` returning handle `new`;
`closeCalled h` records `h.Close()`;
`logCreating i` is the log line "creating new session; index i";
`logReusing i` is the log line "reusing session; index i". -/
inductive Event where
  | copyCalled : Nat → Nat → Event
  | pingCalled : Nat → Bool → Event
  | cloneCalled : Nat → Nat → Event
  | closeCalled : Nat → Event
  | logCreating : Nat → Event
  | logReusing : Nat → Event
deriving DecidableEq, Repr

/-- Go runtime faults the pool code can hit: the explicit
"Session called on closed Pool" check, indexing `p.sessions[p.sessionIndex]`
past the end of the slice (when `maxSessions = 0`), and
`make([]*mgo.Session, n)` with negative `n`. -/
inductive Fatal where
  | closedPool
  | indexOutOfRange
  | makesliceNegativeLen
deriving DecidableEq, Repr

/-- The `Pool` struct: `sessions` is the slot slice (a null pointer is `none`),
`sessionIndex` the round-robin cursor, `session` the private base handle
copied at construction, `closed` the shutdown flag. -/
structure Pool where
  sessions : List (Option Nat)
  sessionIndex : Nat
  session : Nat
  closed : Bool
deriving DecidableEq, Repr

/-- Pool state plus the fresh-handle-identifier counter. -/
structure PState where
  pool : Pool
  nextId : Nat
deriving DecidableEq, Repr

/-- `NewPool(logger, s, maxSessions)`: allocates the slot slice with
`make` (which panics on a negative length), stores a private `s.Copy()`
as the base session, cursor 0, not closed. -/
def NewPool (nextId baseHandle : Nat) (maxSessions : Int) :
    Except Fatal (PState × List Event) :=
  if maxSessions < 0 then
    Except.error Fatal.makesliceNegativeLen
  else
    Except.ok
      ({ pool :=
          { sessions := List.replicate maxSessions.toNat none
            sessionIndex := 0
            session := nextId
            closed := false }
         nextId := nextId + 1 },
       [Event.copyCalled baseHandle nextId])

/-- The state `NewPool` produces for a non-negative `maxSessions`. -/
def freshState (nextId m : Nat) : PState :=
  { pool :=
      { sessions := List.replicate m none
        sessionIndex := 0
        session := nextId
        closed := false }
    nextId := nextId + 1 }

/-- `Pool.Session(logger)`: panics if closed; reads the slot at the cursor
(panicking if the cursor is out of range, which happens when the slice is
empty); on a null slot logs "creating", copies the base session, pings the
copy with the result ignored (`slotPingOk` is that result), and installs the
copy in the slot; on a non-null slot logs "reusing"; advances the cursor by
one modulo the slice length; returns a `Clone` of the slot session. -/
def Session (slotPingOk : Bool) (st : PState) :
    Except Fatal (Nat × PState × List Event) :=
  if st.pool.closed = true then
    Except.error Fatal.closedPool
  else
    match st.pool.sessions[st.pool.sessionIndex]? with
    | none => Except.error Fatal.indexOutOfRange
    | some none =>
        let s := st.nextId
        let sessions := st.pool.sessions.set st.pool.sessionIndex (some s)
        Except.ok
          (s + 1,
           { pool :=
              { sessions := sessions
                sessionIndex := (st.pool.sessionIndex + 1) % sessions.length
                session := st.pool.session
                closed := st.pool.closed }
             nextId := st.nextId + 2 },
           [Event.logCreating st.pool.sessionIndex,
            Event.copyCalled st.pool.session s,
            Event.pingCalled s slotPingOk,
            Event.cloneCalled s (s + 1)])
    | some (some s) =>
        Except.ok
          (st.nextId,
           { pool :=
              { st.pool with
                  sessionIndex :=
                    (st.pool.sessionIndex + 1) % st.pool.sessions.length }
             nextId := st.nextId + 1 },
           [Event.logReusing st.pool.sessionIndex,
            Event.cloneCalled s st.nextId])

/-- `Pool.closeSessions`: walks the slot slice in order, closing every
non-null session and nulling its slot. Returns the new slice and the
close events in slot order. -/
def closeSessions : List (Option Nat) → List (Option Nat) × List Event
  | [] => ([], [])
  | none :: rest =>
      let r := closeSessions rest
      (none :: r.1, r.2)
  | some s :: rest =>
      let r := closeSessions rest
      (none :: r.1, Event.closeCalled s :: r.2)

/-- `Pool.Reset()`: closes and nulls every slot; touches nothing else. -/
def Reset (st : PState) : PState × List Event :=
  let r := closeSessions st.pool.sessions
  ({ st with pool := { st.pool with sessions := r.1 } }, r.2)

/-- `Pool.Close()`: after stopping the pinger, if already closed it returns
at once; otherwise it sets `closed`, closes every slot, and closes the
private base session. -/
def Close (st : PState) : PState × List Event :=
  if st.pool.closed = true then (st, [])
  else
    let p1 := { st.pool with closed := true }
    let r := closeSessions p1.sessions
    ({ st with pool := { p1 with sessions := r.1 } },
     r.2 ++ [Event.closeCalled st.pool.session])

/-- One timer-fired iteration of `Pool.pinger`: borrow a session via
`Session`, ping it (`pingOk` is the outcome), `Reset` the whole pool when
the ping failed, and close the borrowed session. -/
def pingerIter (slotPingOk pingOk : Bool) (st : PState) :
    Except Fatal (PState × List Event) :=
  match Session slotPingOk st with
  | Except.error e => Except.error e
  | Except.ok (sess, st1, es1) =>
      if pingOk then
        Except.ok (st1, es1 ++ [Event.pingCalled sess true, Event.closeCalled sess])
      else
        let r := Reset st1
        Except.ok (r.1,
          es1 ++ [Event.pingCalled sess false] ++ r.2 ++ [Event.closeCalled sess])

/-- `n` sequential `Session` calls, discarding the returned clones and
concatenating the event logs. -/
def runSessions (slotPingOk : Bool) : Nat → PState → Except Fatal (PState × List Event)
  | 0, st => Except.ok (st, [])
  | n + 1, st =>
      match Session slotPingOk st with
      | Except.error e => Except.error e
      | Except.ok (_, st1, es1) =>
          match runSessions slotPingOk n st1 with
          | Except.error e => Except.error e
          | Except.ok (st2, es2) => Except.ok (st2, es1 ++ es2)

/-- The slot slice after `k` sequential `Session` calls on a fresh pool whose
identifier counter started at `base`: slot `j < k` holds the copy created by
call `j` (which consumed two identifiers: the copy and the returned clone),
later slots are still null. -/
def freshSlots (base m k : Nat) : List (Option Nat) :=
  (List.range m).map fun j => if j < k then some (base + 2 * j) else none

/-- A slot access as it appears in the log: a creation or a reuse at an index. -/
inductive SlotAccess where
  | create : Nat → SlotAccess
  | reuse : Nat → SlotAccess
deriving DecidableEq, Repr

/-- The index of a slot access. -/
def SlotAccess.idx : SlotAccess → Nat
  | SlotAccess.create i => i
  | SlotAccess.reuse i => i

/-- Project the creation/reuse log lines out of an event log. -/
def slotAccesses (es : List Event) : List SlotAccess :=
  es.filterMap fun e =>
    match e with
    | Event.logCreating i => some (SlotAccess.create i)
    | Event.logReusing i => some (SlotAccess.reuse i)
    | _ => none

/-- The closed-pool slot invariant: once the closed flag is set, every slot
is null. -/
def ClosedInv (st : PState) : Prop :=
  st.pool.closed = true → ∀ o ∈ st.pool.sessions, o = none

/-! ### Basic characterization lemmas -/

/-- `NewPool` never fails on a non-negative capacity and returns `freshState`. -/
theorem NewPool_natCast (nextId baseHandle m : Nat) :
    NewPool nextId baseHandle (m : Int) =
      Except.ok (freshState nextId m, [Event.copyCalled baseHandle nextId]) := by
  simp [NewPool, freshState]

/-- `Session` on a closed pool hits the explicit fatal check. -/
theorem Session_closed (b : Bool) (st : PState) (h : st.pool.closed = true) :
    Session b st = Except.error Fatal.closedPool := by
  simp [Session, h]

/-- `Session` on an open pool whose current slot is null: copies the base
session, pings the copy, installs it, advances the cursor, returns a clone. -/
theorem Session_miss (b : Bool) (st : PState)
    (hopen : st.pool.closed = false)
    (hslot : st.pool.sessions[st.pool.sessionIndex]? = some none) :
    Session b st =
      Except.ok (st.nextId + 1,
        { pool :=
            { sessions := st.pool.sessions.set st.pool.sessionIndex (some st.nextId)
              sessionIndex := (st.pool.sessionIndex + 1) % st.pool.sessions.length
              session := st.pool.session
              closed := false }
          nextId := st.nextId + 2 },
        [Event.logCreating st.pool.sessionIndex,
         Event.copyCalled st.pool.session st.nextId,
         Event.pingCalled st.nextId b,
         Event.cloneCalled st.nextId (st.nextId + 1)]) := by
  simp [Session, hopen, hslot]

/-- `Session` on an open pool whose current slot holds `s`: leaves the slots
unchanged, advances the cursor, returns a clone of `s`. -/
theorem Session_hit (b : Bool) (st : PState) (s : Nat)
    (hopen : st.pool.closed = false)
    (hslot : st.pool.sessions[st.pool.sessionIndex]? = some (some s)) :
    Session b st =
      Except.ok (st.nextId,
        { pool :=
            { sessions := st.pool.sessions
              sessionIndex := (st.pool.sessionIndex + 1) % st.pool.sessions.length
              session := st.pool.session
              closed := false }
          nextId := st.nextId + 1 },
        [Event.logReusing st.pool.sessionIndex,
         Event.cloneCalled s st.nextId]) := by
  simp [Session, hopen, hslot]

/-- `Session` succeeds on every open pool whose cursor is in range. -/
theorem Session_ok (b : Bool) (st : PState)
    (hopen : st.pool.closed = false)
    (hlt : st.pool.sessionIndex < st.pool.sessions.length) :
    ∃ c st1 es, Session b st = Except.ok (c, st1, es) := by
  cases hg : st.pool.sessions[st.pool.sessionIndex]? with
  | none =>
      rw [List.getElem?_eq_getElem hlt] at hg
      exact Option.noConfusion hg
  | some slot =>
      cases slot with
      | none => exact ⟨_, _, _, Session_miss b st hopen hg⟩
      | some s => exact ⟨_, _, _, Session_hit b st s hopen hg⟩

/-- What every successful `Session` call guarantees: the pool was open, the
cursor was in range, the slot count is preserved, the cursor advances by one
modulo the slot count, the closed flag and base session are untouched, and
exactly one slot access at the pre-call cursor is logged. -/
theorem Session_ok_inv (b : Bool) (st : PState) (c : Nat) (st1 : PState)
    (es : List Event) (h : Session b st = Except.ok (c, st1, es)) :
    st.pool.closed = false ∧
    st.pool.sessionIndex < st.pool.sessions.length ∧
    st1.pool.sessions.length = st.pool.sessions.length ∧
    st1.pool.sessionIndex = (st.pool.sessionIndex + 1) % st.pool.sessions.length ∧
    st1.pool.closed = false ∧
    st1.pool.session = st.pool.session ∧
    (slotAccesses es).map SlotAccess.idx = [st.pool.sessionIndex] := by
  by_cases hc : st.pool.closed = true
  · rw [Session_closed b st hc] at h
    exact Except.noConfusion h
  · replace hc : st.pool.closed = false := by
      revert hc
      cases st.pool.closed <;> simp
    cases hg : st.pool.sessions[st.pool.sessionIndex]? with
    | none =>
        simp [Session, hc, hg] at h
    | some slot =>
        have hlt : st.pool.sessionIndex < st.pool.sessions.length := by
          by_contra hge
          rw [List.getElem?_eq_none (by omega)] at hg
          exact Option.noConfusion hg
        cases slot with
        | none =>
            rw [Session_miss b st hc hg] at h
            simp only [Except.ok.injEq, Prod.mk.injEq] at h
            obtain ⟨-, h2, h3⟩ := h
            subst h2 h3
            refine ⟨hc, hlt, by simp, rfl, rfl, rfl, rfl⟩
        | some s =>
            rw [Session_hit b st s hc hg] at h
            simp only [Except.ok.injEq, Prod.mk.injEq] at h
            obtain ⟨-, h2, h3⟩ := h
            subst h2 h3
            exact ⟨hc, hlt, rfl, rfl, rfl, rfl, rfl⟩

/-- `closeSessions` nulls every slot. -/
theorem closeSessions_fst (l : List (Option Nat)) :
    (closeSessions l).1 = List.replicate l.length none := by
  induction l with
  | nil => rfl
  | cons a t ih => cases a <;> simp [closeSessions, ih, List.replicate_succ]

/-- `closeSessions` closes exactly the non-null slots, in slot order. -/
theorem closeSessions_snd (l : List (Option Nat)) :
    (closeSessions l).2 = (l.filterMap id).map Event.closeCalled := by
  induction l with
  | nil => rfl
  | cons a t ih => cases a <;> simp [closeSessions, ih]

/-- `Close` always leaves the pool closed. -/
theorem Close_closed (st : PState) : ((Close st).1).pool.closed = true := by
  unfold Close
  by_cases hc : st.pool.closed = true
  · rw [if_pos hc]
    exact hc
  · rw [if_neg hc]

/-- `slotAccesses` distributes over event-log concatenation. -/
theorem slotAccesses_append (es1 es2 : List Event) :
    slotAccesses (es1 ++ es2) = slotAccesses es1 ++ slotAccesses es2 := by
  simp [slotAccesses, List.filterMap_append]

theorem freshSlots_length (base m k : Nat) : (freshSlots base m k).length = m := by
  simp [freshSlots]

theorem freshSlots_zero (base m : Nat) :
    freshSlots base m 0 = List.replicate m none := by
  apply List.ext_getElem
  · simp [freshSlots]
  · intro i h1 h2
    simp [freshSlots]

/-- In a fresh run the slot at the cursor is still null. -/
theorem freshSlots_getElem_cursor (base m k : Nat) (h : k < m) :
    (freshSlots base m k)[k]? = some none := by
  rw [List.getElem?_eq_getElem (by simpa [freshSlots_length] using h)]
  simp [freshSlots]

/-- Installing call `k`'s copy into slot `k` extends a fresh run by one call. -/
theorem freshSlots_set (base m k : Nat) (h : k < m) :
    (freshSlots base m k).set k (some (base + 2 * k)) =
      freshSlots base m (k + 1) := by
  apply List.ext_getElem
  · simp [freshSlots]
  · intro i h1 h2
    simp only [freshSlots, List.getElem_set, List.getElem_map, List.getElem_range]
    by_cases hik : k = i
    · subst hik
      simp [h]
    · simp only [hik, if_false]
      by_cases hlt : i < k
      · rw [if_pos hlt, if_pos (by omega)]
      · rw [if_neg hlt, if_neg (by omega)]

/-- After `m` calls every slot of a fresh run is populated. -/
theorem freshSlots_full (base m : Nat) :
    ∀ o ∈ freshSlots base m m, o.isSome := by
  intro o ho
  simp only [freshSlots, List.mem_map, List.mem_range] at ho
  obtain ⟨j, hj, rfl⟩ := ho
  simp [hj]

/-- Slot 0 of a fully populated fresh run holds the very first copy. -/
theorem freshSlots_head (base m : Nat) (h : 0 < m) :
    (freshSlots base m m)[0]? = some (some base) := by
  rw [List.getElem?_eq_getElem (by simpa [freshSlots_length] using h)]
  simp [freshSlots, h]

theorem create_range_succ (j k : Nat) :
    (List.range (k + 1)).map (fun i => SlotAccess.create (j + i)) =
      SlotAccess.create j ::
        (List.range k).map (fun i => SlotAccess.create (j + 1 + i)) := by
  rw [List.range_succ_eq_map, List.map_cons, List.map_map]
  refine congrArg₂ _ (by simp) ?_
  apply List.map_congr_left
  intro i _
  simp only [Function.comp_apply]
  congr 1
  omega

/-- The exact trajectory of a run of `Session` calls over a fresh pool:
starting from the state reached after `j` creating calls, `k` more calls
(with `j + k ≤ m`) all miss, filling slots `j, …, j + k - 1` in order. -/
theorem fresh_run_aux (b : Bool) (nid m : Nat) :
    ∀ k j, j + k ≤ m →
    ∃ es,
      runSessions b k
          ⟨⟨freshSlots (nid + 1) m j, j % m, nid, false⟩, nid + 1 + 2 * j⟩ =
        Except.ok
          (⟨⟨freshSlots (nid + 1) m (j + k), (j + k) % m, nid, false⟩,
            nid + 1 + 2 * (j + k)⟩, es) ∧
      slotAccesses es = (List.range k).map fun i => SlotAccess.create (j + i) := by
  intro k
  induction k with
  | zero =>
      intro j hj
      exact ⟨[], by simp [runSessions], by simp [slotAccesses]⟩
  | succ k ih =>
      intro j hj
      have hjm : j < m := by omega
      have hmod : j % m = j := Nat.mod_eq_of_lt hjm
      have hslot : (freshSlots (nid + 1) m j)[j % m]? = some none := by
        rw [hmod]
        exact freshSlots_getElem_cursor _ _ _ hjm
      have hsess :
          Session b ⟨⟨freshSlots (nid + 1) m j, j % m, nid, false⟩,
              nid + 1 + 2 * j⟩ =
            Except.ok (nid + 1 + 2 * j + 1,
              ⟨⟨freshSlots (nid + 1) m (j + 1), (j + 1) % m, nid, false⟩,
                nid + 1 + 2 * (j + 1)⟩,
              [Event.logCreating j,
               Event.copyCalled nid (nid + 1 + 2 * j),
               Event.pingCalled (nid + 1 + 2 * j) b,
               Event.cloneCalled (nid + 1 + 2 * j) (nid + 1 + 2 * j + 1)]) := by
        rw [Session_miss b _ rfl hslot]
        simp only [hmod, freshSlots_length, freshSlots_set _ _ _ hjm]
        have h2 : nid + 1 + 2 * j + 2 = nid + 1 + 2 * (j + 1) := by omega
        rw [h2]
      obtain ⟨es2, hrun2, hacc2⟩ := ih (j + 1) (by omega)
      refine ⟨[Event.logCreating j,
          Event.copyCalled nid (nid + 1 + 2 * j),
          Event.pingCalled (nid + 1 + 2 * j) b,
          Event.cloneCalled (nid + 1 + 2 * j) (nid + 1 + 2 * j + 1)] ++ es2,
        ?_, ?_⟩
      · simp only [runSessions, hsess, hrun2]
        have h13 : j + 1 + k = j + (k + 1) := by omega
        rw [h13]
      · rw [slotAccesses_append, hacc2]
        have h0 : slotAccesses
            [Event.logCreating j,
             Event.copyCalled nid (nid + 1 + 2 * j),
             Event.pingCalled (nid + 1 + 2 * j) b,
             Event.cloneCalled (nid + 1 + 2 * j) (nid + 1 + 2 * j + 1)] =
            [SlotAccess.create j] := rfl
        rw [h0]
        exact (create_range_succ j k).symm

/-- A run of any length succeeds from any open in-range state, preserves the
slot count and openness, advances the cursor by the number of calls modulo
the slot count, and accesses the slots in round-robin order. -/
theorem runSessions_ok (b : Bool) (n : Nat) :
    ∀ st : PState, st.pool.closed = false →
    st.pool.sessionIndex < st.pool.sessions.length →
    ∃ st1 es, runSessions b n st = Except.ok (st1, es) ∧
      st1.pool.sessions.length = st.pool.sessions.length ∧
      st1.pool.closed = false ∧
      st1.pool.sessionIndex =
        (st.pool.sessionIndex + n) % st.pool.sessions.length ∧
      (slotAccesses es).map SlotAccess.idx =
        (List.range n).map
          (fun i => (st.pool.sessionIndex + i) % st.pool.sessions.length) := by
  induction n with
  | zero =>
      intro st hopen hlt
      exact ⟨st, [], rfl, rfl, hopen,
        by simpa using (Nat.mod_eq_of_lt hlt).symm, by simp [slotAccesses]⟩
  | succ n ih =>
      intro st hopen hlt
      obtain ⟨c, stm, es1, hs⟩ := Session_ok b st hopen hlt
      obtain ⟨-, -, hlen, hidx, hcl, -, hacc⟩ := Session_ok_inv b st c stm es1 hs
      have hm : 0 < st.pool.sessions.length := by omega
      have hlt1 : stm.pool.sessionIndex < stm.pool.sessions.length := by
        rw [hidx, hlen]
        exact Nat.mod_lt _ hm
      obtain ⟨st2, es2, hrun, hlen2, hcl2, hidx2, hacc2⟩ := ih stm hcl hlt1
      refine ⟨st2, es1 ++ es2, ?_, ?_, hcl2, ?_, ?_⟩
      · simp only [runSessions]
        rw [hs]
        simp only [hrun]
      · rw [hlen2, hlen]
      · rw [hidx2, hidx, hlen, Nat.mod_add_mod]
        congr 1
        omega
      · rw [slotAccesses_append, List.map_append, hacc, hacc2, hidx, hlen]
        simp only [List.singleton_append, List.range_succ_eq_map, List.map_cons,
          List.map_map]
        refine congrArg₂ _ ?_ ?_
        · simp [Nat.mod_eq_of_lt hlt]
        apply List.map_congr_left
        intro i _
        simp only [Function.comp_apply]
        rw [Nat.mod_add_mod]
        congr 1
        omega

/-! ### Claim theorems -/

/-- C1 (counterexample): with `maxSessions = 3`, four sequential `Session()`
calls access the slots as `create 0, create 1, create 2, reuse 0`, but after
a `Reset()` the next `Session()` call logs a creation at slot index 1, not at
slot index 0, because `Reset` leaves the round-robin cursor at 1. -/
theorem claim1_counterexample :
    NewPool 0 100 3 = Except.ok (freshState 0 3, [Event.copyCalled 100 0]) ∧
    (runSessions true 4 (freshState 0 3)).map (fun r => slotAccesses r.2) =
      Except.ok [SlotAccess.create 0, SlotAccess.create 1,
        SlotAccess.create 2, SlotAccess.reuse 0] ∧
    (runSessions true 4 (freshState 0 3)).map (fun r => r.1) =
      Except.ok ⟨⟨[some 1, some 3, some 5], 1, 0, false⟩, 8⟩ ∧
    (runSessions true 1
        ((Reset ⟨⟨[some 1, some 3, some 5], 1, 0, false⟩, 8⟩).1)).map
        (fun r => slotAccesses r.2) =
      Except.ok [SlotAccess.create 1] ∧
    [SlotAccess.create 1] ≠ [SlotAccess.create 0] := by
  refine ⟨rfl, rfl, rfl, rfl, by decide⟩

/-- C1 (amended): with `maxSessions = 3`, four sequential `Session()` calls
access the slots as `create 0, create 1, create 2, reuse 0`; a subsequent
`Reset()` followed by one more `Session()` call produces a creation at slot
index 1, the cursor position the fourth call left behind. -/
theorem claim1_scenario :
    NewPool 0 100 3 = Except.ok (freshState 0 3, [Event.copyCalled 100 0]) ∧
    (runSessions true 4 (freshState 0 3)).map (fun r => slotAccesses r.2) =
      Except.ok [SlotAccess.create 0, SlotAccess.create 1,
        SlotAccess.create 2, SlotAccess.reuse 0] ∧
    (runSessions true 4 (freshState 0 3)).map (fun r => r.1) =
      Except.ok ⟨⟨[some 1, some 3, some 5], 1, 0, false⟩, 8⟩ ∧
    (Reset ⟨⟨[some 1, some 3, some 5], 1, 0, false⟩, 8⟩).1 =
      ⟨⟨[none, none, none], 1, 0, false⟩, 8⟩ ∧
    (runSessions true 1 (⟨⟨[none, none, none], 1, 0, false⟩, 8⟩ : PState)).map
        (fun r => slotAccesses r.2) =
      Except.ok [SlotAccess.create 1] := by
  exact ⟨rfl, rfl, rfl, rfl, rfl⟩

/-- C2: on a fresh pool with `maxSessions = m ≥ 1`, a run of `n` sequential
`Session()` calls succeeds, the i-th call (0-indexed) accesses slot index
`i % m`, and every single successful call advances the cursor by exactly one
modulo `m`, leaving it in `[0, m)`. -/
theorem claim2_round_robin (nid b0 m n : Nat) (pb : Bool) (st0 : PState)
    (ev0 : List Event) (hm : 1 ≤ m)
    (hnew : NewPool nid b0 (m : Int) = Except.ok (st0, ev0)) :
    (∃ st es, runSessions pb n st0 = Except.ok (st, es) ∧
      st.pool.sessionIndex = n % m ∧
      st.pool.sessionIndex < m ∧
      (slotAccesses es).map SlotAccess.idx =
        (List.range n).map (fun i => i % m)) ∧
    (∀ st c st1 es, st.pool.sessions.length = m →
      Session pb st = Except.ok (c, st1, es) →
      st1.pool.sessionIndex = (st.pool.sessionIndex + 1) % m ∧
      st1.pool.sessionIndex < m) := by
  rw [NewPool_natCast] at hnew
  simp only [Except.ok.injEq, Prod.mk.injEq] at hnew
  obtain ⟨h1, -⟩ := hnew
  subst h1
  constructor
  · obtain ⟨st, es, hrun, hlen, hcl, hidx, hacc⟩ :=
      runSessions_ok pb n (freshState nid m) rfl (by simp [freshState]; omega)
    refine ⟨st, es, hrun, ?_, ?_, ?_⟩
    · simpa [freshState] using hidx
    · have : st.pool.sessionIndex = n % m := by simpa [freshState] using hidx
      rw [this]
      exact Nat.mod_lt _ (by omega)
    · simpa [freshState] using hacc
  · intro st c st1 es hlen hsess
    obtain ⟨-, hlt, -, hidx, -, -, -⟩ := Session_ok_inv pb st c st1 es hsess
    rw [hlen] at hidx hlt
    exact ⟨hidx, hidx ▸ Nat.mod_lt _ (by omega)⟩

/-- C2 (witness): on a fresh three-slot pool, five calls end with the cursor
at `5 % 3` and access slots `0, 1, 2, 0, 1`. -/
theorem claim2_witness :
    1 ≤ 3 ∧
    NewPool 0 100 (3 : Int) =
      Except.ok (freshState 0 3, [Event.copyCalled 100 0]) ∧
    (∃ st es, runSessions true 5 (freshState 0 3) = Except.ok (st, es) ∧
      st.pool.sessionIndex = 5 % 3 ∧
      st.pool.sessionIndex < 3 ∧
      (slotAccesses es).map SlotAccess.idx =
        (List.range 5).map (fun i => i % 3)) :=
  ⟨by omega, by rfl,
    (claim2_round_robin 0 100 3 5 true (freshState 0 3) [Event.copyCalled 100 0]
      (by omega) (by rfl)).1⟩

/-- C3: on a fresh pool with `maxSessions = m ≥ 1`, after exactly `m`
sequential `Session()` calls every one of the `m` slots is populated, and the
`(m+1)`-th call logs a reuse of slot 0 and returns a clone of the session
already stored there, leaving the slots untouched. -/
theorem claim3_capacity (nid b0 m : Nat) (pb : Bool) (st0 : PState)
    (ev0 : List Event) (hm : 1 ≤ m)
    (hnew : NewPool nid b0 (m : Int) = Except.ok (st0, ev0)) :
    ∃ st es, runSessions pb m st0 = Except.ok (st, es) ∧
      st.pool.sessions.length = m ∧
      (∀ o ∈ st.pool.sessions, o.isSome) ∧
      ∃ s c st1, st.pool.sessions[0]? = some (some s) ∧
        Session pb st =
          Except.ok (c, st1, [Event.logReusing 0, Event.cloneCalled s c]) ∧
        st1.pool.sessions = st.pool.sessions := by
  rw [NewPool_natCast] at hnew
  simp only [Except.ok.injEq, Prod.mk.injEq] at hnew
  obtain ⟨h1, -⟩ := hnew
  subst h1
  obtain ⟨es, hrun, -⟩ := fresh_run_aux pb nid m m 0 (by omega)
  have hfresh : freshState nid m =
      ⟨⟨freshSlots (nid + 1) m 0, 0 % m, nid, false⟩, nid + 1 + 2 * 0⟩ := by
    simp [freshState, freshSlots_zero]
  rw [Nat.zero_add, Nat.mod_self] at hrun
  rw [hfresh]
  refine ⟨_, es, hrun, freshSlots_length _ _ _, freshSlots_full _ _, ?_⟩
  have hhead := freshSlots_head (nid + 1) m (by omega)
  have hsess := Session_hit pb
    ⟨⟨freshSlots (nid + 1) m m, 0, nid, false⟩, nid + 1 + 2 * m⟩ (nid + 1)
    rfl hhead
  exact ⟨nid + 1, nid + 1 + 2 * m, _, hhead, hsess, rfl⟩

/-- C3 (witness): on a fresh three-slot pool, after three calls all slots are
populated and the fourth call reuses slot 0. -/
theorem claim3_witness :
    1 ≤ 3 ∧
    NewPool 0 100 (3 : Int) =
      Except.ok (freshState 0 3, [Event.copyCalled 100 0]) ∧
    (∃ st es, runSessions true 3 (freshState 0 3) = Except.ok (st, es) ∧
      st.pool.sessions.length = 3 ∧
      (∀ o ∈ st.pool.sessions, o.isSome) ∧
      ∃ s c st1, st.pool.sessions[0]? = some (some s) ∧
        Session true st =
          Except.ok (c, st1, [Event.logReusing 0, Event.cloneCalled s c]) ∧
        st1.pool.sessions = st.pool.sessions) :=
  ⟨by omega, by rfl,
    claim3_capacity 0 100 3 true (freshState 0 3) [Event.copyCalled 100 0]
      (by omega) (by rfl)⟩

/-- C4: once `Close()` has completed the closed flag is set, so every
subsequent `Session()` call — on the state `Close` leaves behind, and more
generally on any closed pool state — fails fatally with the
"Session called on closed Pool" panic and never returns a handle. -/
theorem claim4_session_after_close_fatal (b : Bool) (st : PState) :
    Session b ((Close st).1) = Except.error Fatal.closedPool ∧
    (st.pool.closed = true → Session b st = Except.error Fatal.closedPool) := by
  exact ⟨Session_closed b _ (Close_closed st), fun h => Session_closed b st h⟩

/-- C4 (witness): on the concrete closed pool left by closing a one-slot
pool, `Session` fails fatally. -/
theorem claim4_witness :
    Session true ((Close ⟨⟨[some 2], 0, 1, false⟩, 3⟩).1) =
      Except.error Fatal.closedPool ∧
    (⟨⟨[none], 0, 1, true⟩, 3⟩ : PState).pool.closed = true ∧
    Session true (⟨⟨[none], 0, 1, true⟩, 3⟩ : PState) =
      Except.error Fatal.closedPool := by
  refine ⟨(claim4_session_after_close_fatal true ⟨⟨[some 2], 0, 1, false⟩, 3⟩).1,
    rfl, (claim4_session_after_close_fatal true ⟨⟨[none], 0, 1, true⟩, 3⟩).2 rfl⟩

/-- C5: on an open pool, a `Session()` call whose current slot is null copies
the base session, pings the copy while ignoring the outcome (for both ping
outcomes the call succeeds with the same returned handle and post-state, so a
ping failure is never surfaced and never prevents the slot install), stores
the copy in the slot, and returns a clone distinct from the stored copy; on a
hit the call likewise returns a clone distinct from the stored session. -/
theorem claim5_copy_ping_install_clone (b : Bool) (st : PState)
    (hopen : st.pool.closed = false) :
    (st.pool.sessions[st.pool.sessionIndex]? = some none →
      Session b st =
        Except.ok (st.nextId + 1,
          { pool :=
              { sessions :=
                  st.pool.sessions.set st.pool.sessionIndex (some st.nextId)
                sessionIndex := (st.pool.sessionIndex + 1) % st.pool.sessions.length
                session := st.pool.session
                closed := false }
            nextId := st.nextId + 2 },
          [Event.logCreating st.pool.sessionIndex,
           Event.copyCalled st.pool.session st.nextId,
           Event.pingCalled st.nextId b,
           Event.cloneCalled st.nextId (st.nextId + 1)]) ∧
      st.nextId + 1 ≠ st.nextId) ∧
    (st.pool.sessions[st.pool.sessionIndex]? = some none →
      ∀ b1 b2 : Bool,
        (Session b1 st).map (fun r => (r.1, r.2.1)) =
          (Session b2 st).map (fun r => (r.1, r.2.1))) ∧
    (∀ s, st.pool.sessions[st.pool.sessionIndex]? = some (some s) →
      s < st.nextId →
      Session b st =
        Except.ok (st.nextId,
          { pool :=
              { sessions := st.pool.sessions
                sessionIndex := (st.pool.sessionIndex + 1) % st.pool.sessions.length
                session := st.pool.session
                closed := false }
            nextId := st.nextId + 1 },
          [Event.logReusing st.pool.sessionIndex,
           Event.cloneCalled s st.nextId]) ∧
      st.nextId ≠ s) := by
  refine ⟨fun hslot => ⟨Session_miss b st hopen hslot, by omega⟩,
    fun hslot b1 b2 => ?_,
    fun s hslot hlt => ⟨Session_hit b st s hopen hslot, by omega⟩⟩
  rw [Session_miss b1 st hopen hslot, Session_miss b2 st hopen hslot]
  rfl

/-- C5 (witness): on a concrete one-slot open pool, a miss installs the base
copy and returns a distinct clone; on a hit the stored session 4 stays put
and the returned clone 10 is distinct from it. -/
theorem claim5_witness :
    (Session true ⟨⟨[none], 0, 7, false⟩, 10⟩ =
      Except.ok (11, ⟨⟨[some 10], 0, 7, false⟩, 12⟩,
        [Event.logCreating 0, Event.copyCalled 7 10, Event.pingCalled 10 true,
         Event.cloneCalled 10 11])) ∧
    (Session true ⟨⟨[none], 0, 7, false⟩, 10⟩).map (fun r => (r.1, r.2.1)) =
      (Session false ⟨⟨[none], 0, 7, false⟩, 10⟩).map (fun r => (r.1, r.2.1)) ∧
    (Session false ⟨⟨[some 4], 0, 7, false⟩, 10⟩ =
      Except.ok (10, ⟨⟨[some 4], 0, 7, false⟩, 11⟩,
        [Event.logReusing 0, Event.cloneCalled 4 10])) ∧
    (11 : Nat) ≠ 10 ∧ (10 : Nat) ≠ 4 := by
  obtain ⟨h1, h2, h3⟩ :=
    claim5_copy_ping_install_clone true ⟨⟨[none], 0, 7, false⟩, 10⟩ rfl
  obtain ⟨h4, -, h5⟩ :=
    claim5_copy_ping_install_clone false ⟨⟨[some 4], 0, 7, false⟩, 10⟩ rfl
  exact ⟨(h1 rfl).1, h2 rfl true false, (h5 4 rfl (by decide)).1,
    by omega, by omega⟩

/-- C6: in a timer-fired iteration of the pinger whose `Session()` call
succeeds, the monitor resets the whole pool exactly when its ping of the
borrowed session fails (after which every slot is null; on a successful ping
the pool state is exactly the post-`Session` state, untouched by any reset),
and in both cases it closes the session it borrowed. -/
theorem claim6_pinger_heals_and_closes (sp ok : Bool) (st : PState)
    (sess : Nat) (st1 : PState) (es1 : List Event)
    (h : Session sp st = Except.ok (sess, st1, es1)) :
    ∃ st2 es, pingerIter sp ok st = Except.ok (st2, es) ∧
      Event.closeCalled sess ∈ es ∧
      (ok = false →
        st2 = (Reset st1).1 ∧ ∀ o ∈ st2.pool.sessions, o = none) ∧
      (ok = true → st2 = st1) := by
  cases ok
  · refine ⟨(Reset st1).1,
      es1 ++ [Event.pingCalled sess false] ++ (Reset st1).2 ++
        [Event.closeCalled sess], ?_, ?_, ?_, ?_⟩
    · simp only [pingerIter]
      rw [h]
      simp
    · simp
    · intro _hok
      refine ⟨rfl, ?_⟩
      intro o ho
      simp only [Reset, closeSessions_fst] at ho
      exact List.eq_of_mem_replicate ho
    · intro hcon
      exact Bool.noConfusion hcon
  · refine ⟨st1,
      es1 ++ [Event.pingCalled sess true, Event.closeCalled sess],
      ?_, ?_, ?_, ?_⟩
    · simp only [pingerIter]
      rw [h]
      simp
    · simp
    · intro hcon
      exact Bool.noConfusion hcon
    · intro _hok
      rfl

/-- C6 (witness): on a fresh one-slot pool whose borrowed clone is session 2,
a failing monitor ping resets the pool (leaving the single slot null) and the
monitor closes session 2. -/
theorem claim6_witness :
    ∃ st2 es, pingerIter true false (freshState 0 1) = Except.ok (st2, es) ∧
      Event.closeCalled 2 ∈ es ∧
      (false = false →
        st2 = (Reset ⟨⟨[some 1], 0, 0, false⟩, 3⟩).1 ∧
        ∀ o ∈ st2.pool.sessions, o = none) ∧
      (false = true → st2 = ⟨⟨[some 1], 0, 0, false⟩, 3⟩) :=
  claim6_pinger_heals_and_closes true false (freshState 0 1) 2
    ⟨⟨[some 1], 0, 0, false⟩, 3⟩
    [Event.logCreating 0, Event.copyCalled 0 1, Event.pingCalled 1 true,
     Event.cloneCalled 1 2]
    rfl

/-- C7: `Close` is idempotent — a second `Close` on the state the first one
left behind returns that state unchanged and performs no close calls at all
(in particular it does not close the base session a second time). -/
theorem claim7_close_idempotent (st : PState) :
    Close ((Close st).1) = ((Close st).1, []) ∧
    ((Close st).1).pool.closed = true := by
  constructor
  · have h := Close_closed st
    generalize (Close st).1 = stc at h ⊢
    unfold Close
    rw [if_pos h]
  · exact Close_closed st

/-- C10: `Reset` nulls every slot and changes nothing else — the cursor, the
closed flag, the private base session and the identifier counter are all
untouched, the close events are exactly those of the non-null slots, and the
next successful `Session` call accesses the slot index the cursor pointed at
before the `Reset`. -/
theorem claim10_reset_frame (st : PState) :
    (Reset st).1.pool.sessions = List.replicate st.pool.sessions.length none ∧
    (Reset st).1.pool.sessionIndex = st.pool.sessionIndex ∧
    (Reset st).1.pool.session = st.pool.session ∧
    (Reset st).1.pool.closed = st.pool.closed ∧
    (Reset st).1.nextId = st.nextId ∧
    (Reset st).2 = (st.pool.sessions.filterMap id).map Event.closeCalled ∧
    (∀ b c st1 es, Session b ((Reset st).1) = Except.ok (c, st1, es) →
      (slotAccesses es).map SlotAccess.idx = [st.pool.sessionIndex]) := by
  refine ⟨?_, rfl, rfl, rfl, rfl, ?_, ?_⟩
  · simpa [Reset] using closeSessions_fst st.pool.sessions
  · simpa [Reset] using closeSessions_snd st.pool.sessions
  · intro b c st1 es h
    exact (Session_ok_inv b _ c st1 es h).2.2.2.2.2.2

/-- C10 (witness): resetting a concrete three-slot pool with cursor 1 keeps
the cursor at 1, and the next `Session` call accesses slot 1. -/
theorem claim10_witness :
    (Reset ⟨⟨[some 1, some 3, some 5], 1, 0, false⟩, 8⟩).1 =
      ⟨⟨[none, none, none], 1, 0, false⟩, 8⟩ ∧
    (slotAccesses [Event.logCreating 1, Event.copyCalled 0 8,
        Event.pingCalled 8 true, Event.cloneCalled 8 9]).map SlotAccess.idx = [1] := by
  refine ⟨rfl,
    (claim10_reset_frame ⟨⟨[some 1, some 3, some 5], 1, 0, false⟩, 8⟩).2.2.2.2.2.2
      true 9 ⟨⟨[none, some 8, none], 2, 0, false⟩, 10⟩ _ rfl⟩

/-- C8: the closed-pool invariant. `Session` on a closed pool never succeeds;
a successful `Session` call preserves the closed flag and the invariant that
a closed pool has only null slots; `Reset` preserves the closed flag and
(unconditionally) re-establishes the all-null-slots invariant; `Close` always
leaves the flag set (so the flag only ever moves from false to true — no
operation ever clears it), preserves the invariant, and is the identity on an
already-closed pool, so the slots of a closed pool stay null under every
subsequent operation. -/
theorem claim8_closed_monotone_invariant (st : PState) (b : Bool) :
    (st.pool.closed = true → Session b st = Except.error Fatal.closedPool) ∧
    (∀ c st1 es, Session b st = Except.ok (c, st1, es) →
      st1.pool.closed = st.pool.closed ∧ ClosedInv st1) ∧
    ((Reset st).1.pool.closed = st.pool.closed ∧ ClosedInv (Reset st).1) ∧
    ((Close st).1.pool.closed = true ∧
      (ClosedInv st → ClosedInv (Close st).1) ∧
      (st.pool.closed = true → (Close st).1 = st ∧ (Close st).2 = [])) := by
  refine ⟨fun h => Session_closed b st h, ?_, ⟨rfl, ?_⟩, Close_closed st, ?_, ?_⟩
  · intro c st1 es h
    obtain ⟨hop, -, -, -, hcl, -, -⟩ := Session_ok_inv b st c st1 es h
    refine ⟨hcl.trans hop.symm, ?_⟩
    intro hcon
    rw [hcl] at hcon
    exact Bool.noConfusion hcon
  · intro hcl o ho
    simp only [Reset, closeSessions_fst] at ho
    exact List.eq_of_mem_replicate ho
  · intro hinv
    by_cases hc : st.pool.closed = true
    · unfold Close
      rw [if_pos hc]
      exact hinv
    · intro hcl o ho
      unfold Close at ho
      rw [if_neg hc] at ho
      simp only [closeSessions_fst] at ho
      exact List.eq_of_mem_replicate ho
  · intro hc
    unfold Close
    rw [if_pos hc]
    exact ⟨rfl, rfl⟩

/-- C8 (witness): on a concrete closed single-slot pool, `Session` fails
fatally, `Reset` keeps the pool closed and all slots null, and `Close` is the
identity. -/
theorem claim8_witness :
    Session true ⟨⟨[none], 0, 5, true⟩, 6⟩ = Except.error Fatal.closedPool ∧
    (Reset ⟨⟨[none], 0, 5, true⟩, 6⟩).1.pool.closed = true ∧
    ClosedInv (Reset ⟨⟨[none], 0, 5, true⟩, 6⟩).1 ∧
    (Close ⟨⟨[none], 0, 5, true⟩, 6⟩).1 =
      (⟨⟨[none], 0, 5, true⟩, 6⟩ : PState) := by
  obtain ⟨h1, -, ⟨h3, h4⟩, -, -, h5⟩ :=
    claim8_closed_monotone_invariant ⟨⟨[none], 0, 5, true⟩, 6⟩ true
  exact ⟨h1 rfl, h3, h4, (h5 rfl).1⟩

/-- C9 (counterexample): for the non-positive capacity `-1`, `NewPool` does
not produce a pool at all — construction fails fatally, because `make` with a
negative slice length panics. -/
theorem claim9_counterexample :
    NewPool 0 0 (-1) = Except.error Fatal.makesliceNegativeLen := by
  rfl

/-- C9 (amended): `NewPool` with capacity 0 still produces a degenerate pool
without failing (it is the subsequent `Session()` calls that fail fatally,
with an index-out-of-range panic on the empty slot slice), while every
negative capacity makes construction itself fail fatally. -/
theorem claim9_degenerate_capacity (nid b0 : Nat) (b : Bool) :
    NewPool nid b0 0 =
      Except.ok (freshState nid 0, [Event.copyCalled b0 nid]) ∧
    Session b (freshState nid 0) = Except.error Fatal.indexOutOfRange ∧
    (∀ m : Int, m < 0 →
      NewPool nid b0 m = Except.error Fatal.makesliceNegativeLen) := by
  refine ⟨NewPool_natCast nid b0 0, ?_, ?_⟩
  · simp [Session, freshState]
  · intro m hm
    simp [NewPool, hm]

/-- C9 (witness): capacity 0 constructs a degenerate pool whose `Session`
fails fatally, and capacity `-2` makes construction fail fatally. -/
theorem claim9_witness :
    NewPool 5 9 0 = Except.ok (freshState 5 0, [Event.copyCalled 9 5]) ∧
    Session true (freshState 5 0) = Except.error Fatal.indexOutOfRange ∧
    (-2 : Int) < 0 ∧
    NewPool 5 9 (-2) = Except.error Fatal.makesliceNegativeLen := by
  obtain ⟨h1, h2, h3⟩ := claim9_degenerate_capacity 5 9 true
  exact ⟨h1, h2, by decide, h3 (-2) (by decide)⟩

end Mgosession
